import Mathlib

namespace PixelAgents

/-!
Verification development for the pixel-agents extension host code.

Shallow embedding of the extension-side modules:
agentManager.ts, activityMonitor.ts, the layout message handlers of
PixelAgentsViewProvider.ts, and assetLoader.ts.  JavaScript Map objects
are embedded as insertion-ordered association lists, timers as an
explicit set of pending (handle, fireTime) pairs, and the file system
and webview as explicit values.  Machine time (Date.now) is passed in
as an explicit natural-number parameter.
-/

/-- Activity states, from types.ts (AgentActivityState). -/
inductive AgentActivityState where
  | idle
  | typing
  | thinking
  | terminal
deriving DecidableEq

/-- AgentState, from types.ts. -/
structure AgentState where
  id : Nat
  activityState : AgentActivityState
  lastActivityMs : Nat
deriving DecidableEq

/-- PersistedAgent, from types.ts: identity only. -/
structure PersistedAgent where
  id : Nat
deriving DecidableEq

/-- JSON values (the result of JSON.parse), used for layout records. -/
inductive Json where
  | num (n : Int)
  | str (s : String)
  | bool (b : Bool)
  | null
  | arr (elems : List Json)
  | obj (fields : List (String × Json))

/-- Messages posted to the webview (the subset the claims are about). -/
inductive Msg where
  | agentCreated (id : Nat)
  | agentStatus (id : Nat) (status : AgentActivityState)
  | layoutLoaded (layout : Json)

/-! ## JavaScript Map model

A JS Map is embedded as an insertion-ordered association list with
distinct keys.  Map.get, Map.set (replace in place or append), and
Map.delete are mirrored below. -/

def mget {κ α : Type} [DecidableEq κ] : List (κ × α) → κ → Option α
  | [], _ => none
  | (k', v) :: rest, k => if k' = k then some v else mget rest k

def mset {κ α : Type} [DecidableEq κ] : List (κ × α) → κ → α → List (κ × α)
  | [], k, v => [(k, v)]
  | (k', v') :: rest, k, v =>
      if k' = k then (k', v) :: rest else (k', v') :: mset rest k v

def mdel {κ α : Type} [DecidableEq κ] (m : List (κ × α)) (k : κ) : List (κ × α) :=
  m.filter (fun p => decide (p.1 ≠ k))

/-! ## agentManager.ts

The manager state bundles the mutable context threaded through the
functions of agentManager.ts: the nextAgentIdRef, the agents Map, the
activeAgentIdRef, the workspaceState slot holding the persisted agents
(read and written through WORKSPACE_KEY_AGENTS), whether the webview is
defined, and a counter of how many times the persistence callback ran. -/

structure ManagerState where
  nextAgentId : Nat
  agents : List (Nat × AgentState)
  activeAgentId : Option Nat
  store : List PersistedAgent
  persistCount : Nat
  hasWebview : Bool
deriving DecidableEq

/-- The body of persistAgents: one PersistedAgent {id} per agent value. -/
def persistedOf (agents : List (Nat × AgentState)) : List PersistedAgent :=
  agents.map (fun p => ⟨p.2.id⟩)

/-- Invoking the persistence callback: workspaceState.update with the
persisted roster, counted. -/
def doPersist (s : ManagerState) : ManagerState :=
  { s with store := persistedOf s.agents, persistCount := s.persistCount + 1 }

/-- createAgent from agentManager.ts: take nextAgentIdRef.current and
post-increment it, insert a fresh idle agent, make it active, persist,
and post agentCreated when the webview is defined. -/
def createAgent (s : ManagerState) (now : Nat) : ManagerState × List Msg :=
  let id := s.nextAgentId
  let agent : AgentState := ⟨id, .idle, now⟩
  let s1 : ManagerState :=
    { s with nextAgentId := id + 1
             agents := mset s.agents id agent
             activeAgentId := some id }
  (doPersist s1, if s.hasWebview then [.agentCreated id] else [])

/-- removeAgent from agentManager.ts: early return when the id is not in
the Map; otherwise delete the entry and persist. -/
def removeAgent (agentId : Nat) (s : ManagerState) : ManagerState :=
  match mget s.agents agentId with
  | none => s
  | some _ => doPersist { s with agents := mdel s.agents agentId }

/-- The maxId loop of restoreAgents. -/
def restoreMaxId (persisted : List PersistedAgent) : Nat :=
  persisted.foldl (fun acc p => if p.id > acc then p.id else acc) 0

/-- The agents.set loop of restoreAgents: each persisted agent comes
back with activityState idle and lastActivityMs Date.now. -/
def restoreFold (agents : List (Nat × AgentState)) (persisted : List PersistedAgent)
    (now : Nat) : List (Nat × AgentState) :=
  persisted.foldl (fun m p => mset m p.id ⟨p.id, .idle, now⟩) agents

/-- restoreAgents from agentManager.ts: read the persisted roster from
workspaceState, early return when it is empty, otherwise re-insert every
persisted agent as idle, raise nextAgentIdRef above the maximum restored
id when needed, and persist. -/
def restoreAgents (s : ManagerState) (now : Nat) : ManagerState :=
  let persisted := s.store
  if persisted.isEmpty then s
  else
    let agents' := restoreFold s.agents persisted now
    let maxId := restoreMaxId persisted
    let next' := if maxId ≥ s.nextAgentId then maxId + 1 else s.nextAgentId
    doPersist { s with agents := agents', nextAgentId := next' }

/-- The operations of one process session that touch the agent roster. -/
inductive MgrOp where
  | create (now : Nat)
  | remove (id : Nat)
  | restore (now : Nat)

def applyOp (s : ManagerState) (op : MgrOp) : ManagerState :=
  match op with
  | .create now => (createAgent s now).1
  | .remove id => removeAgent id s
  | .restore now => restoreAgents s now

def runOps (s : ManagerState) (ops : List MgrOp) : ManagerState :=
  ops.foldl applyOp s

/-- Every key of the agents Map is strictly below the ref value that
createAgent would hand out next. -/
def IdsBelowNext (s : ManagerState) : Prop :=
  ∀ p ∈ s.agents, p.1 < s.nextAgentId

/-! ## activityMonitor.ts

The monitor state holds the agents Map shared with the provider, the
module-level idleTimer variable (the handle held by the last
setTimeout, possibly stale after the timeout fired), the environment
set of pending timeouts as (handle, fireTime) pairs, the handle
counter, and whether getWebview() returns a webview.  TEXT_IDLE_DELAY_MS
is passed in as the parameter D (constants.ts is not part of the
embedded sources; the claims only constrain the delay symbolically). -/

structure MonState where
  agents : List (Nat × AgentState)
  pending : List (Nat × Nat)
  idleTimer : Option Nat
  nextHandle : Nat
  hasWebview : Bool
deriving DecidableEq

/-- updateSingleAgent from activityMonitor.ts. -/
def updateSingleAgent (id : Nat) (agent : AgentState) (state : AgentActivityState)
    (now : Nat) (hasWebview : Bool) : AgentState × List Msg :=
  if agent.activityState ≠ state then
    ({ agent with activityState := state, lastActivityMs := now },
     if hasWebview then [.agentStatus id state] else [])
  else
    (agent, [])

/-- setAgentState from activityMonitor.ts: broadcast the state to every
agent in Map iteration order. -/
def setAgentState (state : AgentActivityState) (agents : List (Nat × AgentState))
    (now : Nat) (hasWebview : Bool) : List (Nat × AgentState) × List Msg :=
  match agents with
  | [] => ([], [])
  | (id, a) :: rest =>
      let r := updateSingleAgent id a state now hasWebview
      let rr := setAgentState state rest now hasWebview
      ((id, r.1) :: rr.1, r.2 ++ rr.2)

/-- resetIdleTimer from activityMonitor.ts: clearTimeout on the held
handle (a no-op when that timeout already fired or never existed), then
setTimeout of the idle decay D milliseconds from now. -/
def resetIdleTimer (D : Nat) (s : MonState) (now : Nat) : MonState :=
  let cleared :=
    match s.idleTimer with
    | some h => s.pending.filter (fun p => decide (p.1 ≠ h))
    | none => s.pending
  { s with pending := cleared ++ [(s.nextHandle, now + D)]
           idleTimer := some s.nextHandle
           nextHandle := s.nextHandle + 1 }

/-- The shared body of every qualifying listener branch:
setAgentState followed by resetIdleTimer. -/
def applyActivity (D : Nat) (target : AgentActivityState) (s : MonState)
    (now : Nat) : MonState × List Msg :=
  let r := setAgentState target s.agents now s.hasWebview
  (resetIdleTimer D { s with agents := r.1 } now, r.2)

/-- The host events the listeners registered by startActivityMonitoring
observe: the inserted texts of a text document change, a tab-group
change, an active-terminal change (false when the new active terminal
is undefined), the per-selection line spans of a selection change, and
an active-editor change. -/
inductive HostEvent where
  | textDocChange (changes : List String)
  | tabsChanged
  | activeTerminalChanged (hasTerminal : Bool)
  | selectionChanged (spans : List Nat)
  | activeEditorChanged
deriving DecidableEq

/-- The dispatch performed by the listeners of startActivityMonitoring. -/
def handleEvent (D : Nat) (e : HostEvent) (s : MonState) (now : Nat) :
    MonState × List Msg :=
  match e with
  | .textDocChange changes =>
      if changes.isEmpty then (s, [])
      else if changes.any (fun c => decide (c.length > 0)) then
        applyActivity D .typing s now
      else (s, [])
  | .tabsChanged => applyActivity D .thinking s now
  | .activeTerminalChanged hasTerminal =>
      if hasTerminal then applyActivity D .terminal s now else (s, [])
  | .selectionChanged spans =>
      if spans.isEmpty then (s, [])
      else if decide (spans.foldl (· + ·) 0 > 10) then
        applyActivity D .thinking s now
      else (s, [])
  | .activeEditorChanged => applyActivity D .thinking s now

/-- Whether an event makes some listener branch run setAgentState and
resetIdleTimer. -/
def isQualifying : HostEvent → Bool
  | .textDocChange changes =>
      !changes.isEmpty && changes.any (fun c => decide (c.length > 0))
  | .tabsChanged => true
  | .activeTerminalChanged hasTerminal => hasTerminal
  | .selectionChanged spans =>
      !spans.isEmpty && decide (spans.foldl (· + ·) 0 > 10)
  | .activeEditorChanged => true

/-- The state a qualifying event broadcasts. -/
def eventTarget : HostEvent → AgentActivityState
  | .textDocChange _ => .typing
  | .tabsChanged => .thinking
  | .activeTerminalChanged _ => .terminal
  | .selectionChanged _ => .thinking
  | .activeEditorChanged => .thinking

/-- The environment firing the timeout with handle h at time now: the
callback broadcasts idle, and the timeout leaves the pending set.  The
module variable idleTimer keeps holding the stale handle, as in the
source. -/
def fireTimer (s : MonState) (h : Nat) (now : Nat) : MonState :=
  { s with agents := (setAgentState .idle s.agents now s.hasWebview).1
           pending := s.pending.filter (fun p => decide (p.1 ≠ h)) }

/-- Fire every pending timeout whose fire time lies strictly before t,
in pending order, reporting the fire times. -/
def fireAllDueBefore (s : MonState) (t : Nat) : MonState × List Nat :=
  let due := s.pending.filter (fun p => decide (p.2 < t))
  (due.foldl (fun acc p => fireTimer acc p.1 p.2) s, due.map Prod.snd)

/-- Run a time-ordered list of host events against the event loop:
before each event, fire the timeouts due strictly before it; after the
last event, every timeout still pending fires at its scheduled time.
Returns the final state and the times at which the idle decay fired. -/
def runEvents (D : Nat) : MonState → List (Nat × HostEvent) → MonState × List Nat
  | s, [] =>
      (s.pending.foldl (fun acc p => fireTimer acc p.1 p.2) s, s.pending.map Prod.snd)
  | s, (t, e) :: rest =>
      let r1 := fireAllDueBefore s t
      let s2 := (handleEvent D e r1.1 t).1
      let r := runEvents D s2 rest
      (r.1, r1.2 ++ r.2)

/-- Timer sanity: at most one pending timeout, and any pending timeout
is the one whose handle the module variable holds. -/
def TInv (s : MonState) : Prop :=
  s.pending.length ≤ 1 ∧ ∀ p ∈ s.pending, s.idleTimer = some p.1

/-! ## Cross-instance layout sync (PixelAgentsViewProvider.ts handlers)

The message handlers that touch the shared layout file are embedded as
functions from the incoming payload to the ordered list of extension
actions they perform.  The watcher object itself lives in
layoutPersistence.ts, which is not among the embedded sources, so its
two operations are modelled from the spec. -/

/-- Modelled from the spec: the LayoutWatcher of layoutPersistence.ts is
not among the embedded sources (only its callers are).  Per the sync
protocol section, it keeps one write-intent flag that marks the next
observed change notification as self-originated. -/
structure LayoutWatcher where
  suppressNext : Bool
deriving DecidableEq

/-- Modelled from the spec: markOwnWrite flags the next observed change
notification as self-originated. -/
def markOwnWrite (_w : LayoutWatcher) : LayoutWatcher := ⟨true⟩

/-- Extension-side actions a layout message handler performs, in program
order. -/
inductive PAction where
  | markOwnWrite
  | writeLayoutFile (layout : Json)
  | postLayoutLoaded (layout : Json)
  | showError (text : String)
  | showInfo (text : String)

/-- Modelled from the spec: the change callback registered through
watchLayoutFile.  While the write-intent flag is set, exactly one
notification is swallowed and the flag cleared; otherwise the
notification is external and the callback of startLayoutWatcher in
PixelAgentsViewProvider.ts posts one layoutLoaded with the new layout. -/
def onLayoutFileChanged (w : LayoutWatcher) (layout : Json) :
    LayoutWatcher × List PAction :=
  if w.suppressNext then (⟨false⟩, [])
  else (w, [.postLayoutLoaded layout])

/-- The saveLayout branch of resolveWebviewView.  hasWatcher is whether
this.layoutWatcher is non-null (startLayoutWatcher runs only at the end
of the async asset block, so handlers can run before it): the optional
chaining this.layoutWatcher?.markOwnWrite() marks only in that case,
while writeLayoutToFile runs unconditionally. -/
def handleSaveLayout (hasWatcher : Bool) (layout : Json) : List PAction :=
  (if hasWatcher then [PAction.markOwnWrite] else []) ++ [.writeLayoutFile layout]

/-- Field lookup on a parsed JSON object (undefined on non-objects). -/
def jlookup : Json → String → Option Json
  | .obj fields, k => mget fields k
  | _, _ => none

/-- The test imported.version === 1 (strict equality against the number
one). -/
def versionIs1 (j : Json) : Bool :=
  match jlookup j "version" with
  | some (.num n) => n == 1
  | _ => false

/-- The test Array.isArray(imported.tiles). -/
def tilesIsArray (j : Json) : Bool :=
  match jlookup j "tiles" with
  | some (.arr _) => true
  | _ => false

/-- The validation guard of the importLayout branch: the negation of
imported.version !== 1 || !Array.isArray(imported.tiles). -/
def importLayoutCheckOk (j : Json) : Bool :=
  versionIs1 j && tilesIsArray j

/-- The importLayout branch of resolveWebviewView.  The dialog outcome
is none when no file was chosen, some none when reading or parsing the
chosen file threw, and some (some imported) when it parsed; hasWatcher
is whether this.layoutWatcher is non-null when the message arrives
(see handleSaveLayout). -/
def handleImportLayout (hasWatcher : Bool) (dialog : Option (Option Json)) :
    List PAction :=
  match dialog with
  | none => []
  | some none => [.showError "Pixel Agents: Failed to read or parse layout file."]
  | some (some imported) =>
      if importLayoutCheckOk imported then
        (if hasWatcher then [PAction.markOwnWrite] else []) ++
          [.writeLayoutFile imported, .postLayoutLoaded imported,
           .showInfo "Pixel Agents: Layout imported successfully."]
      else
        [.showError "Pixel Agents: Invalid layout file."]

/-- The resetToDefaultLayout branch of resolveWebviewView; hasWatcher is
whether this.layoutWatcher is non-null when the message arrives (see
handleSaveLayout). -/
def handleResetToDefaultLayout (hasWatcher : Bool) (defaultLayout : Option Json) :
    List PAction :=
  match defaultLayout with
  | some d =>
      (if hasWatcher then [PAction.markOwnWrite] else []) ++
        [.writeLayoutFile d, .postLayoutLoaded d,
         .showInfo "Pixel Agents: Layout reset to default."]
  | none => [.showError "Pixel Agents: Default layout not available."]

/-- Every file write in the action list is preceded by a write-intent
mark. -/
def MarkPrecedesWrites (acts : List PAction) : Prop :=
  ∀ (i : Nat) (l : Json), acts[i]? = some (PAction.writeLayoutFile l) →
    ∃ j : Nat, j < i ∧ acts[j]? = some PAction.markOwnWrite

/-! ## assetLoader.ts -/

/-- A decoded PNG as pngjs delivers it: dimensions and the flat RGBA
byte array. -/
structure Png where
  width : Nat
  height : Nat
  data : List Nat
deriving DecidableEq

/-- Reading a byte of png.data (bytes, so 0..255). -/
def pngByte (png : Png) (i : Nat) : Nat :=
  png.data.getD i 0

/-- One uppercase hexadecimal digit. -/
def hexDigit (n : Nat) : Char :=
  if n < 10 then Char.ofNat (48 + n) else Char.ofNat (55 + n)

/-- toString(16).padStart(2, zero).toUpperCase() for a byte. -/
def byteHex (n : Nat) : String :=
  String.mk [hexDigit (n / 16 % 16), hexDigit (n % 16)]

/-- One pixel the way every loader converts it: the empty string below
the alpha threshold (PNG_ALPHA_THRESHOLD, passed in as thr since
constants.ts is not among the embedded sources), otherwise an uppercase
hash-RRGGBB string. -/
def pngPixelStr (thr : Nat) (png : Png) (x y : Nat) : String :=
  let idx := (y * png.width + x) * 4
  let a := pngByte png (idx + 3)
  if a < thr then ""
  else "#" ++ byteHex (pngByte png idx) ++ byteHex (pngByte png (idx + 1)) ++
    byteHex (pngByte png (idx + 2))

/-- Modelled from the spec: walls.png piece width.  constants.ts is not
among the embedded sources; the value is fixed by the doc comment of
loadWallTiles (a 4 by 4 grid of 16 by 32 pieces) and the spec. -/
def WALL_PIECE_WIDTH : Nat := 16

/-- Modelled from the spec: walls.png piece height, see WALL_PIECE_WIDTH. -/
def WALL_PIECE_HEIGHT : Nat := 32

/-- Modelled from the spec: the sprite palette has 4 columns. -/
def WALL_GRID_COLS : Nat := 4

/-- Modelled from the spec: 16 wall sprites, one per 4-bit bitmask. -/
def WALL_BITMASK_COUNT : Nat := 16

/-- loadWallTiles from assetLoader.ts: for each bitmask, cut the 16 by
32 piece at column mask mod 4, row mask div 4 out of walls.png. -/
def loadWallTiles (thr : Nat) (png : Png) : List (List (List String)) :=
  (List.range WALL_BITMASK_COUNT).map fun mask =>
    let ox := (mask % WALL_GRID_COLS) * WALL_PIECE_WIDTH
    let oy := (mask / WALL_GRID_COLS) * WALL_PIECE_HEIGHT
    (List.range WALL_PIECE_HEIGHT).map fun r =>
      (List.range WALL_PIECE_WIDTH).map fun c =>
        pngPixelStr thr png (ox + c) (oy + r)

/-- One catalog entry of furniture-catalog.json (the fields the loader
reads). -/
structure FurnitureAsset where
  id : String
  name : String
  label : String
  category : String
  file : String
  width : Nat
  height : Nat
deriving DecidableEq

/-- What the file system holds at a path that exists: a buffer that
PNG.sync.read parses, or one on which it throws. -/
inductive FileContent where
  | png (p : Png)
  | invalid
deriving DecidableEq

/-- pngToSpriteData from assetLoader.ts: the parsed PNG converted pixel
by pixel over the declared dimensions, or, when parsing throws, a fully
transparent placeholder of the declared dimensions. -/
def pngToSpriteData (thr : Nat) (content : FileContent) (width height : Nat) :
    List (List String) :=
  match content with
  | .png p =>
      (List.range height).map fun y =>
        (List.range width).map fun x => pngPixelStr thr p x y
  | .invalid => (List.range height).map fun _ => List.replicate width ""

/-- String.prototype.startsWith, over the character sequences. -/
def strStartsWith (s pre : String) : Bool :=
  pre.data.isPrefixOf s.data

/-- The file-path normalization of the furniture loop: prepend assets/
when missing. -/
def resolveAssetFile (file : String) : String :=
  if strStartsWith file "assets/" then file else "assets/" ++ file

def joinPath (root rel : String) : String := root ++ "/" ++ rel

/-- The body of the furniture loop for one catalog entry: skip when the
file does not exist, otherwise read, convert and store under the asset
id. -/
def loadStep (thr : Nat) (root : String) (fs : List (String × FileContent))
    (sprites : List (String × List (List String))) (asset : FurnitureAsset) :
    List (String × List (List String)) :=
  match mget fs (joinPath root (resolveAssetFile asset.file)) with
  | none => sprites
  | some content =>
      mset sprites asset.id (pngToSpriteData thr content asset.width asset.height)

/-- loadFurnitureAssets from assetLoader.ts: fold the per-asset step
over the whole catalog, starting from an empty sprites Map. -/
def loadFurnitureAssets (thr : Nat) (root : String)
    (fs : List (String × FileContent)) (catalog : List FurnitureAsset) :
    List (String × List (List String)) :=
  catalog.foldl (loadStep thr root fs) []

theorem mget_mset_self {κ α : Type} [DecidableEq κ] (m : List (κ × α)) (k : κ) (v : α) :
    mget (mset m k v) k = some v := by
  induction m with
  | nil => simp [mget, mset]
  | cons p rest ih =>
      obtain ⟨pk, pv⟩ := p
      by_cases h : pk = k
      · simp [mset, mget, h]
      · simp [mset, mget, h, ih]

theorem mget_mset_ne {κ α : Type} [DecidableEq κ] (m : List (κ × α)) (k k' : κ) (v : α)
    (h : k ≠ k') : mget (mset m k' v) k = mget m k := by
  have h' : ¬ k' = k := by
    intro hh
    exact h hh.symm
  induction m with
  | nil => simp [mget, mset, h']
  | cons p rest ih =>
      obtain ⟨pk, pv⟩ := p
      by_cases hp : pk = k'
      · subst hp
        simp [mset, mget, h']
      · by_cases hk : pk = k
        · simp [mset, mget, hp, hk, h]
        · simp [mset, mget, hp, hk, ih]

theorem mget_mdel_self {κ α : Type} [DecidableEq κ] (m : List (κ × α)) (k : κ) :
    mget (mdel m k) k = none := by
  induction m with
  | nil => rfl
  | cons p rest ih =>
      obtain ⟨pk, pv⟩ := p
      by_cases h : pk = k
      · simpa [mdel, List.filter_cons, h] using ih
      · simpa [mdel, List.filter_cons, h, mget] using ih

theorem mget_mdel_ne {κ α : Type} [DecidableEq κ] (m : List (κ × α)) (k k' : κ)
    (h : k ≠ k') : mget (mdel m k') k = mget m k := by
  have h2 : ¬ k' = k := by
    intro hh
    exact h hh.symm
  induction m with
  | nil => rfl
  | cons p rest ih =>
      obtain ⟨pk, pv⟩ := p
      by_cases hp : pk = k'
      · simpa [mdel, List.filter_cons, hp, mget, h2] using ih
      · by_cases hk : pk = k
        · simp [mdel, List.filter_cons, hp, mget, hk, h]
        · simpa [mdel, List.filter_cons, hp, mget, hk] using ih

theorem mget_some_mem {κ α : Type} [DecidableEq κ] {m : List (κ × α)} {k : κ} {v : α}
    (h : mget m k = some v) : (k, v) ∈ m := by
  induction m with
  | nil => simp [mget] at h
  | cons p rest ih =>
      obtain ⟨pk, pv⟩ := p
      by_cases hp : pk = k
      · simp [mget, hp] at h
        subst hp
        subst h
        exact List.mem_cons_self _ _
      · simp [mget, hp] at h
        exact List.mem_cons_of_mem _ (ih h)

theorem mem_mset {κ α : Type} [DecidableEq κ] {m : List (κ × α)} {k : κ} {v : α}
    {p : κ × α} (h : p ∈ mset m k v) : p.1 = k ∨ p ∈ m := by
  induction m with
  | nil =>
      simp [mset] at h
      left
      simp [h]
  | cons q rest ih =>
      obtain ⟨qk, qv⟩ := q
      by_cases hq : qk = k
      · simp [mset, hq] at h
        rcases h with h | h
        · left; simp [h, hq]
        · right; exact List.mem_cons_of_mem _ h
      · simp [mset, hq] at h
        rcases h with h | h
        · right; simp [h]
        · rcases ih h with h' | h'
          · left; exact h'
          · right; exact List.mem_cons_of_mem _ h'

theorem mset_eq_append {κ α : Type} [DecidableEq κ] (m : List (κ × α)) (k : κ) (v : α)
    (h : mget m k = none) : mset m k v = m ++ [(k, v)] := by
  induction m with
  | nil => simp [mset]
  | cons p rest ih =>
      by_cases hp : p.1 = k
      · simp [mget, hp] at h
      · simp [mget, hp] at h
        simp [mset, hp, ih h]

theorem restoreMaxId_le {persisted : List PersistedAgent} {q : PersistedAgent}
    (hq : q ∈ persisted) : q.id ≤ restoreMaxId persisted := by
  have key : ∀ (l : List PersistedAgent) (a : Nat),
      (∀ r ∈ l, r.id ≤ l.foldl (fun acc p => if p.id > acc then p.id else acc) a) ∧
      a ≤ l.foldl (fun acc p => if p.id > acc then p.id else acc) a := by
    intro l
    induction l with
    | nil =>
        intro a
        refine ⟨?_, le_refl a⟩
        intro r hr
        cases hr
    | cons p rest ih =>
        intro a
        constructor
        · intro r hr
          rcases List.mem_cons.mp hr with h | h
          · subst h
            by_cases hgt : r.id > a
            · simpa [hgt] using (ih (r.id)).2
            · have : r.id ≤ a := Nat.le_of_not_lt hgt
              exact le_trans this (by simpa [hgt] using (ih a).2)
          · by_cases hgt : p.id > a
            · simpa [hgt] using (ih (p.id)).1 r h
            · simpa [hgt] using (ih a).1 r h
        · by_cases hgt : p.id > a
          · have := (ih (p.id)).2
            simpa [hgt] using le_trans (Nat.le_of_lt hgt) this
          · simpa [hgt] using (ih a).2
  exact (key persisted 0).1 q hq

theorem mem_restoreFold {agents : List (Nat × AgentState)}
    {persisted : List PersistedAgent} {now : Nat} {p : Nat × AgentState}
    (h : p ∈ restoreFold agents persisted now) :
    p ∈ agents ∨ ∃ q ∈ persisted, p.1 = q.id := by
  induction persisted generalizing agents with
  | nil => exact Or.inl h
  | cons q rest ih =>
      have h' : p ∈ restoreFold (mset agents q.id ⟨q.id, .idle, now⟩) rest now := h
      rcases ih h' with h2 | h2
      · rcases mem_mset h2 with h3 | h3
        · exact Or.inr ⟨q, List.mem_cons_self _ _, h3⟩
        · exact Or.inl h3
      · rcases h2 with ⟨r, hr, hpr⟩
        exact Or.inr ⟨r, List.mem_cons_of_mem _ hr, hpr⟩

theorem restoreAgents_nextAgentId_ge (s : ManagerState) (now : Nat) :
    s.nextAgentId ≤ (restoreAgents s now).nextAgentId := by
  unfold restoreAgents
  by_cases he : s.store.isEmpty
  · simp [he]
  · by_cases hge : restoreMaxId s.store ≥ s.nextAgentId
    · simp [he, hge, doPersist]
      omega
    · simp [he, hge, doPersist]

theorem restoreAgents_above_store (s : ManagerState) (now : Nat) :
    ∀ q ∈ s.store, q.id < (restoreAgents s now).nextAgentId := by
  intro q hq
  have hmax := restoreMaxId_le hq
  have hne : ¬ s.store.isEmpty := by
    intro he
    rw [List.isEmpty_iff] at he
    rw [he] at hq
    cases hq
  unfold restoreAgents
  by_cases hge : restoreMaxId s.store ≥ s.nextAgentId
  · simp [hne, hge, doPersist]
    omega
  · simp [hne, hge, doPersist]
    omega

theorem idsBelowNext_applyOp {s : ManagerState} (h : IdsBelowNext s) (op : MgrOp) :
    IdsBelowNext (applyOp s op) := by
  cases op with
  | create now =>
      intro p hp
      simp only [applyOp, createAgent, doPersist] at hp ⊢
      rcases mem_mset hp with h1 | h1
      · omega
      · exact Nat.lt_succ_of_lt (h p h1)
  | remove id =>
      intro p hp
      simp only [applyOp, removeAgent] at hp ⊢
      cases hm : mget s.agents id with
      | none => simp [hm] at hp ⊢; exact h p hp
      | some a =>
          simp [hm, doPersist, mdel] at hp ⊢
          exact h p hp.1
  | restore now =>
      intro p hp
      simp only [applyOp] at hp ⊢
      by_cases he : s.store.isEmpty
      · simp only [restoreAgents, he, if_pos] at hp ⊢
        exact h p hp
      · simp only [restoreAgents, he, if_neg, Bool.false_eq_true,
          not_false_iff, doPersist] at hp ⊢
        rcases mem_restoreFold hp with h1 | h1
        · have := h p h1
          by_cases hge : restoreMaxId s.store ≥ s.nextAgentId
          · simp [hge]; omega
          · simp [hge]; omega
        · rcases h1 with ⟨q, hq, hpq⟩
          have := restoreMaxId_le hq
          by_cases hge : restoreMaxId s.store ≥ s.nextAgentId
          · simp [hge]; omega
          · simp [hge]; omega

theorem idsBelowNext_runOps {s : ManagerState} (h : IdsBelowNext s)
    (ops : List MgrOp) : IdsBelowNext (runOps s ops) := by
  induction ops generalizing s with
  | nil => exact h
  | cons op rest ih => exact ih (idsBelowNext_applyOp h op)

theorem mget_none_of_idsBelowNext {s : ManagerState} (h : IdsBelowNext s) :
    mget s.agents s.nextAgentId = none := by
  cases hm : mget s.agents s.nextAgentId with
  | none => rfl
  | some a =>
      have := h _ (mget_some_mem hm)
      omega

theorem mget_append {κ α : Type} [DecidableEq κ] (m1 m2 : List (κ × α)) (k : κ) :
    mget (m1 ++ m2) k =
      match mget m1 k with
      | some v => some v
      | none => mget m2 k := by
  induction m1 with
  | nil => simp [mget]
  | cons p rest ih =>
      obtain ⟨pk, pv⟩ := p
      by_cases hp : pk = k
      · simp [mget, hp]
      · simp [mget, hp, ih]

theorem restoreFold_fresh (persisted : List PersistedAgent) (now : Nat)
    (agents : List (Nat × AgentState))
    (hd : ∀ q ∈ persisted, mget agents q.id = none)
    (hnd : (persisted.map PersistedAgent.id).Nodup) :
    restoreFold agents persisted now =
      agents ++ persisted.map (fun q => (q.id, ⟨q.id, .idle, now⟩)) := by
  induction persisted generalizing agents with
  | nil => simp [restoreFold]
  | cons q rest ih =>
      have hq : mget agents q.id = none := hd q (List.mem_cons_self _ _)
      have step : restoreFold agents (q :: rest) now =
          restoreFold (mset agents q.id ⟨q.id, .idle, now⟩) rest now := rfl
      rw [step, mset_eq_append _ _ _ hq]
      have hnd' : (rest.map PersistedAgent.id).Nodup := (List.nodup_cons.mp hnd).2
      have hqrest : q.id ∉ rest.map PersistedAgent.id := (List.nodup_cons.mp hnd).1
      have hd' : ∀ r ∈ rest,
          mget (agents ++ [(q.id, (⟨q.id, .idle, now⟩ : AgentState))]) r.id = none := by
        intro r hr
        have hne : ¬ q.id = r.id := by
          intro he
          exact hqrest (he ▸ List.mem_map_of_mem PersistedAgent.id hr)
        rw [mget_append]
        rw [hd r (List.mem_cons_of_mem _ hr)]
        simp [mget, hne]
      rw [ih _ hd' hnd']
      simp [List.append_assoc]

theorem length_le_one_cases {α : Type} {l : List α} (h : l.length ≤ 1) :
    l = [] ∨ ∃ a, l = [a] := by
  cases l with
  | nil => exact Or.inl rfl
  | cons a rest =>
      cases rest with
      | nil => exact Or.inr ⟨a, rfl⟩
      | cons b r2 => simp at h

theorem setAgentState_state {state : AgentActivityState}
    {agents : List (Nat × AgentState)} {now : Nat} {w : Bool} :
    ∀ p ∈ (setAgentState state agents now w).1, p.2.activityState = state := by
  induction agents with
  | nil => intro p hp; cases hp
  | cons q rest ih =>
      obtain ⟨qid, qa⟩ := q
      intro p hp
      simp only [setAgentState] at hp
      rcases List.mem_cons.mp hp with h | h
      · subst h
        simp only [updateSingleAgent]
        by_cases hne : qa.activityState ≠ state
        · simp [hne]
        · simp [hne]
          exact not_not.mp hne
      · exact ih p h

theorem resetIdleTimer_pending {D : Nat} {s : MonState} {now : Nat} (h : TInv s) :
    (resetIdleTimer D s now).pending = [(s.nextHandle, now + D)] ∧
    (resetIdleTimer D s now).idleTimer = some s.nextHandle ∧
    TInv (resetIdleTimer D s now) := by
  obtain ⟨hlen, hheld⟩ := h
  have hp : (resetIdleTimer D s now).pending = [(s.nextHandle, now + D)] := by
    rcases length_le_one_cases hlen with he | ⟨p, he⟩
    · cases hi : s.idleTimer <;> simp [resetIdleTimer, he, hi]
    · have := hheld p (by rw [he]; exact List.mem_cons_self _ _)
      simp [resetIdleTimer, he, this]
  refine ⟨hp, rfl, ?_, ?_⟩
  · rw [hp]; simp
  · intro p hpmem
    rw [hp] at hpmem
    simp at hpmem
    simp [resetIdleTimer, hpmem]

theorem fireTimer_pending_sub {s : MonState} {h t : Nat} :
    ∀ p ∈ (fireTimer s h t).pending, p ∈ s.pending := by
  intro p hp
  simp only [fireTimer] at hp
  exact List.mem_of_mem_filter hp

theorem fireAllDueBefore_spec {s : MonState} {t : Nat} (h : TInv s) :
    TInv (fireAllDueBefore s t).1 ∧
    (∀ f ∈ (fireAllDueBefore s t).2, f < t) ∧
    (fireAllDueBefore s t).1.nextHandle = s.nextHandle ∧
    (fireAllDueBefore s t).1.hasWebview = s.hasWebview := by
  obtain ⟨hlen, hheld⟩ := h
  rcases length_le_one_cases hlen with he | ⟨p, he⟩
  · refine ⟨⟨?_, ?_⟩, ?_, ?_, ?_⟩ <;> simp [fireAllDueBefore, he]
  · obtain ⟨ph, pt⟩ := p
    by_cases hdue : pt < t
    · have hfire : fireAllDueBefore s t =
          (fireTimer s ph pt, [pt]) := by
        simp [fireAllDueBefore, he, hdue]
      rw [hfire]
      refine ⟨⟨?_, ?_⟩, ?_, ?_, ?_⟩
      · simp [fireTimer, he]
      · intro q hq
        simp [fireTimer, he] at hq
      · intro f hf
        simp at hf
        omega
      · rfl
      · rfl
    · have hfire : fireAllDueBefore s t = (s, []) := by
        simp [fireAllDueBefore, he, hdue]
      rw [hfire]
      refine ⟨⟨hlen, hheld⟩, ?_, rfl, rfl⟩
      intro f hf
      cases hf

theorem handleEvent_qualifying {D : Nat} {e : HostEvent} {s : MonState} {now : Nat}
    (h : isQualifying e = true) :
    handleEvent D e s now = applyActivity D (eventTarget e) s now := by
  cases e with
  | textDocChange changes =>
      simp only [isQualifying, Bool.and_eq_true, Bool.not_eq_true'] at h
      simp [handleEvent, eventTarget, h.1, h.2]
  | tabsChanged => rfl
  | activeTerminalChanged b =>
      simp only [isQualifying] at h
      simp [handleEvent, eventTarget, h]
  | selectionChanged spans =>
      simp only [isQualifying, Bool.and_eq_true, Bool.not_eq_true'] at h
      simp [handleEvent, eventTarget, h.1, h.2]
  | activeEditorChanged => rfl

theorem handleEvent_not_qualifying {D : Nat} {e : HostEvent} {s : MonState} {now : Nat}
    (h : isQualifying e = false) :
    handleEvent D e s now = (s, []) := by
  cases e with
  | textDocChange changes =>
      simp only [isQualifying, Bool.and_eq_false_iff, Bool.not_eq_false'] at h
      rcases h with h | h
      · simp [handleEvent, h]
      · by_cases he : changes.isEmpty
        · simp [handleEvent, he]
        · simp [handleEvent, he, h]
  | tabsChanged => simp [isQualifying] at h
  | activeTerminalChanged b =>
      simp only [isQualifying] at h
      simp [handleEvent, h]
  | selectionChanged spans =>
      simp only [isQualifying, Bool.and_eq_false_iff, Bool.not_eq_false'] at h
      rcases h with h | h
      · simp [handleEvent, h]
      · by_cases he : spans.isEmpty
        · simp [handleEvent, he]
        · simp [handleEvent, he, h]
  | activeEditorChanged => simp [isQualifying] at h

theorem eventTarget_ne_idle {e : HostEvent} (h : isQualifying e = true) :
    eventTarget e ≠ .idle := by
  cases e <;> simp [eventTarget]

theorem applyActivity_spec {D : Nat} {target : AgentActivityState} {s : MonState}
    {now : Nat} (h : TInv s) :
    (applyActivity D target s now).1.pending = [(s.nextHandle, now + D)] ∧
    TInv (applyActivity D target s now).1 ∧
    (applyActivity D target s now).1.agents =
      (setAgentState target s.agents now s.hasWebview).1 := by
  have hmid : TInv { s with agents := (setAgentState target s.agents now s.hasWebview).1 } := h
  have hr := @resetIdleTimer_pending D _ now hmid
  exact ⟨hr.1, hr.2.2, rfl⟩

theorem runEvents_nil (D : Nat) (s : MonState) :
    runEvents D s [] =
      (s.pending.foldl (fun acc p => fireTimer acc p.1 p.2) s, s.pending.map Prod.snd) :=
  rfl

theorem runEvents_cons (D : Nat) (s : MonState) (t : Nat) (e : HostEvent)
    (rest : List (Nat × HostEvent)) :
    runEvents D s ((t, e) :: rest) =
      ((runEvents D (handleEvent D e (fireAllDueBefore s t).1 t).1 rest).1,
       (fireAllDueBefore s t).2 ++
         (runEvents D (handleEvent D e (fireAllDueBefore s t).1 t).1 rest).2) :=
  rfl

theorem runEvents_qual_spec (D : Nat) (hD : 0 < D) :
    ∀ (evs : List (Nat × HostEvent)) (tn : Nat) (en : HostEvent) (s : MonState),
      TInv s →
      ((evs ++ [(tn, en)]).map Prod.fst).Pairwise (· < ·) →
      (∀ ev ∈ evs ++ [(tn, en)], isQualifying ev.2 = true) →
      ((runEvents D s (evs ++ [(tn, en)])).2.filter (fun f => decide (tn < f)) =
        [tn + D]) ∧
      (∀ p ∈ (runEvents D s (evs ++ [(tn, en)])).1.agents,
        p.2.activityState = .idle) := by
  intro evs
  induction evs with
  | nil =>
      intro tn en s hinv hsort hq
      simp only [List.nil_append] at *
      have hqen : isQualifying en = true := hq (tn, en) (by simp)
      obtain ⟨hinv1, hflt, hnh, hwv⟩ := @fireAllDueBefore_spec s tn hinv
      have hpend2 : (handleEvent D en (fireAllDueBefore s tn).1 tn).1.pending =
          [((fireAllDueBefore s tn).1.nextHandle, tn + D)] := by
        rw [handleEvent_qualifying hqen]
        exact (applyActivity_spec hinv1).1
      rw [runEvents_cons, runEvents_nil, hpend2]
      constructor
      · rw [List.filter_append]
        have hnilf : List.filter (fun f => decide (tn < f))
            (fireAllDueBefore s tn).2 = [] := by
          rw [List.filter_eq_nil_iff]
          intro f hf
          have := hflt f hf
          simp
          omega
        rw [hnilf]
        simp
        exact hD
      · intro p hp
        simp only [List.foldl_cons, List.foldl_nil] at hp
        have : p ∈ (setAgentState .idle
            (handleEvent D en (fireAllDueBefore s tn).1 tn).1.agents (tn + D)
            (handleEvent D en (fireAllDueBefore s tn).1 tn).1.hasWebview).1 := hp
        exact setAgentState_state p this
  | cons te rest ih =>
      intro tn en s hinv hsort hq
      obtain ⟨t1, e1⟩ := te
      have hq1 : isQualifying e1 = true := hq (t1, e1) (by simp)
      obtain ⟨hinv1, hflt, hnh, hwv⟩ := @fireAllDueBefore_spec s t1 hinv
      have hinv2 : TInv (handleEvent D e1 (fireAllDueBefore s t1).1 t1).1 := by
        rw [handleEvent_qualifying hq1]
        exact (applyActivity_spec hinv1).2.1
      have hsort2 : (t1 :: (rest ++ [(tn, en)]).map Prod.fst).Pairwise (· < ·) := by
        simpa using hsort
      have hpc := List.pairwise_cons.mp hsort2
      have hsort' : ((rest ++ [(tn, en)]).map Prod.fst).Pairwise (· < ·) := hpc.2
      have hq' : ∀ ev ∈ rest ++ [(tn, en)], isQualifying ev.2 = true :=
        fun ev hev => hq ev (List.mem_cons_of_mem _ hev)
      obtain ⟨ihf, iha⟩ := ih tn en _ hinv2 hsort' hq'
      rw [List.cons_append, runEvents_cons]
      constructor
      · rw [List.filter_append, ihf]
        have ht1n : t1 < tn := by
          refine hpc.1 tn ?_
          exact List.mem_map_of_mem Prod.fst
            (List.mem_append_right _ (List.mem_singleton_self _))
        have hnilf : List.filter (fun f => decide (tn < f))
            (fireAllDueBefore s t1).2 = [] := by
          rw [List.filter_eq_nil_iff]
          intro f hf
          have := hflt f hf
          simp
          omega
        rw [hnilf]
        rfl
      · exact iha

theorem getD_range_map {α : Type} (n i : Nat) (f : Nat → α) (d : α) (h : i < n) :
    ((List.range n).map f).getD i d = f i := by
  rw [List.getD_eq_getElem?_getD, List.getElem?_map, List.getElem?_range h]
  rfl

theorem mget_loadStep_ne (thr : Nat) (root : String)
    (fs : List (String × FileContent)) (acc : List (String × List (List String)))
    (a : FurnitureAsset) (i : String) (hne : i ≠ a.id) :
    mget (loadStep thr root fs acc a) i = mget acc i := by
  unfold loadStep
  cases mget fs (joinPath root (resolveAssetFile a.file)) with
  | none => rfl
  | some c => exact mget_mset_ne _ _ _ _ hne

theorem mget_loadFold_notmem (thr : Nat) (root : String)
    (fs : List (String × FileContent)) :
    ∀ (catalog : List FurnitureAsset) (acc : List (String × List (List String)))
      (i : String), i ∉ catalog.map FurnitureAsset.id →
      mget (catalog.foldl (loadStep thr root fs) acc) i = mget acc i := by
  intro catalog
  induction catalog with
  | nil =>
      intro acc i _
      rfl
  | cons a rest ih =>
      intro acc i hi
      simp only [List.map_cons, List.mem_cons] at hi
      push_neg at hi
      rw [List.foldl_cons, ih _ i hi.2, mget_loadStep_ne thr root fs acc a i hi.1]

theorem mget_loadFold_mem (thr : Nat) (root : String)
    (fs : List (String × FileContent)) :
    ∀ (catalog : List FurnitureAsset) (acc : List (String × List (List String)))
      (asset : FurnitureAsset),
      (catalog.map FurnitureAsset.id).Nodup → asset ∈ catalog →
      mget (catalog.foldl (loadStep thr root fs) acc) asset.id =
        match mget fs (joinPath root (resolveAssetFile asset.file)) with
        | none => mget acc asset.id
        | some content =>
            some (pngToSpriteData thr content asset.width asset.height) := by
  intro catalog
  induction catalog with
  | nil =>
      intro acc asset _ h
      cases h
  | cons a rest ih =>
      intro acc asset hnd hmem
      have hnd2 : a.id ∉ rest.map FurnitureAsset.id ∧
          (rest.map FurnitureAsset.id).Nodup := by
        rw [List.map_cons, List.nodup_cons] at hnd
        exact hnd
      rcases List.mem_cons.mp hmem with he | hm
      · subst he
        rw [List.foldl_cons, mget_loadFold_notmem thr root fs rest _ _ hnd2.1]
        unfold loadStep
        cases hc : mget fs (joinPath root (resolveAssetFile asset.file)) with
        | none => rfl
        | some c => simp [mget_mset_self]
      · have hne : asset.id ≠ a.id := by
          intro he
          exact hnd2.1 (he ▸ List.mem_map_of_mem FurnitureAsset.id hm)
        rw [List.foldl_cons, ih _ asset hnd2.2 hm]
        cases hc : mget fs (joinPath root (resolveAssetFile asset.file)) with
        | none =>
            simp only []
            exact mget_loadStep_ne thr root fs acc a asset.id hne
        | some c => rfl

/-- C3: for every agent and activity event, updateSingleAgent posts an
agentStatus message only when the target state differs from the current
activityState; on an equal state it posts nothing and leaves the agent
(activityState and lastActivityMs) unchanged; on a differing state it
updates both fields and, when the webview is defined, posts exactly one
agentStatus with the new state. -/
theorem agent_status_posted_only_on_change (id : Nat) (agent : AgentState)
    (state : AgentActivityState) (now : Nat) (hw : Bool) :
    ((updateSingleAgent id agent state now hw).2 ≠ [] →
      agent.activityState ≠ state) ∧
    (agent.activityState = state →
      updateSingleAgent id agent state now hw = (agent, [])) ∧
    (agent.activityState ≠ state →
      (updateSingleAgent id agent state now hw).1 =
        { agent with activityState := state, lastActivityMs := now } ∧
      (hw = true →
        (updateSingleAgent id agent state now hw).2 = [.agentStatus id state])) := by
  refine ⟨?_, ?_, ?_⟩
  · intro hne heq
    rw [updateSingleAgent] at hne
    simp [heq] at hne
  · intro heq
    rw [updateSingleAgent]
    simp [heq]
  · intro hne
    rw [updateSingleAgent]
    simp [hne]

/-- Witness for C3 at a concrete agent: a same-state event is a no-op
and a differing event posts one agentStatus. -/
theorem agent_status_posted_only_on_change_witness :
    ((AgentState.mk 1 .typing 5).activityState = .typing →
      updateSingleAgent 1 ⟨1, .typing, 5⟩ .typing 9 true = (⟨1, .typing, 5⟩, [])) ∧
    ((AgentState.mk 1 .typing 5).activityState ≠ .thinking →
      (updateSingleAgent 1 ⟨1, .typing, 5⟩ .thinking 9 true).1 =
        { AgentState.mk 1 .typing 5 with
            activityState := .thinking, lastActivityMs := 9 } ∧
      (true = true →
        (updateSingleAgent 1 ⟨1, .typing, 5⟩ .thinking 9 true).2 =
          [.agentStatus 1 .thinking])) :=
  ⟨(agent_status_posted_only_on_change 1 ⟨1, .typing, 5⟩ .typing 9 true).2.1,
   (agent_status_posted_only_on_change 1 ⟨1, .typing, 5⟩ .thinking 9 true).2.2⟩

/-- C10: removeAgent with an id missing from the agents Map is a
no-op (in particular the persistence callback does not run); with a
present id it deletes exactly that entry, leaves every other id bound
as before, and persists once. -/
theorem remove_agent_missing_noop (s : ManagerState) (agentId : Nat) :
    (mget s.agents agentId = none → removeAgent agentId s = s) ∧
    (∀ a : AgentState, mget s.agents agentId = some a →
      (removeAgent agentId s).agents = mdel s.agents agentId ∧
      mget (removeAgent agentId s).agents agentId = none ∧
      (∀ k : Nat, k ≠ agentId →
        mget (removeAgent agentId s).agents k = mget s.agents k) ∧
      (removeAgent agentId s).persistCount = s.persistCount + 1) := by
  constructor
  · intro hnone
    rw [removeAgent, hnone]
  · intro a hsome
    rw [removeAgent, hsome]
    refine ⟨rfl, ?_, ?_, rfl⟩
    · exact mget_mdel_self s.agents agentId
    · intro k hk
      exact mget_mdel_ne s.agents k agentId hk

/-- Witness for C10 at a concrete roster with agents 1 and 2. -/
theorem remove_agent_missing_noop_witness :
    (removeAgent 5 ⟨3, [(1, ⟨1, .idle, 0⟩), (2, ⟨2, .typing, 4⟩)], none, [], 0, true⟩ =
      ⟨3, [(1, ⟨1, .idle, 0⟩), (2, ⟨2, .typing, 4⟩)], none, [], 0, true⟩) ∧
    ((removeAgent 1 ⟨3, [(1, ⟨1, .idle, 0⟩), (2, ⟨2, .typing, 4⟩)], none, [], 0, true⟩).agents =
      mdel [(1, ⟨1, .idle, 0⟩), (2, ⟨2, .typing, 4⟩)] 1 ∧
     mget (removeAgent 1 ⟨3, [(1, ⟨1, .idle, 0⟩), (2, ⟨2, .typing, 4⟩)], none, [], 0, true⟩).agents 1 = none ∧
     (∀ k : Nat, k ≠ 1 →
       mget (removeAgent 1 ⟨3, [(1, ⟨1, .idle, 0⟩), (2, ⟨2, .typing, 4⟩)], none, [], 0, true⟩).agents k =
         mget [(1, ⟨1, .idle, 0⟩), (2, ⟨2, .typing, 4⟩)] k) ∧
     (removeAgent 1 ⟨3, [(1, ⟨1, .idle, 0⟩), (2, ⟨2, .typing, 4⟩)], none, [], 0, true⟩).persistCount = 0 + 1) :=
  ⟨(remove_agent_missing_noop ⟨3, [(1, ⟨1, .idle, 0⟩), (2, ⟨2, .typing, 4⟩)], none, [], 0, true⟩ 5).1 rfl,
   (remove_agent_missing_noop ⟨3, [(1, ⟨1, .idle, 0⟩), (2, ⟨2, .typing, 4⟩)], none, [], 0, true⟩ 1).2
     ⟨1, .idle, 0⟩ rfl⟩

/-- C5: from any state whose live ids sit below the nextAgentId ref,
any sequence of create, remove and restore operations preserves that
bound; hence createAgent always hands out the current ref value, which
is bound to no live agent, stores the fresh idle agent under it and
increments the ref; and restoreAgents leaves the ref strictly above
every restored id. -/
theorem agent_ids_monotonic_never_reused (s0 : ManagerState)
    (h0 : IdsBelowNext s0) (ops : List MgrOp) (now : Nat) :
    IdsBelowNext (runOps s0 ops) ∧
    mget (runOps s0 ops).agents (runOps s0 ops).nextAgentId = none ∧
    mget (createAgent (runOps s0 ops) now).1.agents (runOps s0 ops).nextAgentId =
      some ⟨(runOps s0 ops).nextAgentId, .idle, now⟩ ∧
    (createAgent (runOps s0 ops) now).1.nextAgentId =
      (runOps s0 ops).nextAgentId + 1 ∧
    (∀ q ∈ (runOps s0 ops).store,
      q.id < (restoreAgents (runOps s0 ops) now).nextAgentId) := by
  have hrun : IdsBelowNext (runOps s0 ops) := idsBelowNext_runOps h0 ops
  refine ⟨hrun, mget_none_of_idsBelowNext hrun, ?_, rfl, ?_⟩
  · show mget (mset (runOps s0 ops).agents (runOps s0 ops).nextAgentId _) _ = _
    exact mget_mset_self _ _ _
  · exact restoreAgents_above_store (runOps s0 ops) now

/-- Witness for C5: a fresh session that restores a stale roster with
id 7 and then creates an agent. -/
theorem agent_ids_monotonic_never_reused_witness :
    IdsBelowNext (runOps ⟨1, [], none, [⟨7⟩], 0, true⟩ [.restore 3, .create 5]) ∧
    mget (runOps ⟨1, [], none, [⟨7⟩], 0, true⟩ [.restore 3, .create 5]).agents
      (runOps ⟨1, [], none, [⟨7⟩], 0, true⟩ [.restore 3, .create 5]).nextAgentId = none ∧
    mget (createAgent (runOps ⟨1, [], none, [⟨7⟩], 0, true⟩ [.restore 3, .create 5]) 9).1.agents
      (runOps ⟨1, [], none, [⟨7⟩], 0, true⟩ [.restore 3, .create 5]).nextAgentId =
      some ⟨(runOps ⟨1, [], none, [⟨7⟩], 0, true⟩ [.restore 3, .create 5]).nextAgentId, .idle, 9⟩ ∧
    (createAgent (runOps ⟨1, [], none, [⟨7⟩], 0, true⟩ [.restore 3, .create 5]) 9).1.nextAgentId =
      (runOps ⟨1, [], none, [⟨7⟩], 0, true⟩ [.restore 3, .create 5]).nextAgentId + 1 ∧
    (∀ q ∈ (runOps ⟨1, [], none, [⟨7⟩], 0, true⟩ [.restore 3, .create 5]).store,
      q.id < (restoreAgents (runOps ⟨1, [], none, [⟨7⟩], 0, true⟩ [.restore 3, .create 5]) 9).nextAgentId) :=
  agent_ids_monotonic_never_reused ⟨1, [], none, [⟨7⟩], 0, true⟩
    (by intro p hp; cases hp) [.restore 3, .create 5] 9

/-- C6: persistAgents stores exactly one identity record per agent, and
restoreAgents applied to that record in a fresh session recreates the
same ids, each restored agent idle. -/
theorem persist_restore_roundtrip (agents : List (Nat × AgentState)) (now : Nat)
    (next : Nat) (hw : Bool)
    (hkey : ∀ p ∈ agents, p.2.id = p.1)
    (hnd : (agents.map Prod.fst).Nodup) :
    persistedOf agents = agents.map (fun p => PersistedAgent.mk p.2.id) ∧
    (restoreAgents ⟨next, [], none, persistedOf agents, 0, hw⟩ now).agents.map Prod.fst =
      agents.map Prod.fst ∧
    (∀ p ∈ (restoreAgents ⟨next, [], none, persistedOf agents, 0, hw⟩ now).agents,
      p.2.activityState = .idle) := by
  have hids : (persistedOf agents).map PersistedAgent.id = agents.map Prod.fst := by
    rw [persistedOf, List.map_map]
    exact List.map_congr_left hkey
  have hndp : ((persistedOf agents).map PersistedAgent.id).Nodup := by
    rw [hids]
    exact hnd
  refine ⟨rfl, ?_, ?_⟩
  · by_cases hne : (persistedOf agents).isEmpty
    · have h0 : persistedOf agents = [] := List.isEmpty_iff.mp hne
      have hag : agents = [] := by
        cases agents with
        | nil => rfl
        | cons a r => simp [persistedOf] at h0
      subst hag
      simp [restoreAgents, persistedOf]
    · simp only [restoreAgents]
      rw [if_neg hne]
      simp only [doPersist]
      rw [restoreFold_fresh (persistedOf agents) now [] (fun q _ => rfl) hndp]
      rw [List.nil_append, List.map_map]
      exact hids
  · intro p hp
    by_cases hne : (persistedOf agents).isEmpty
    · simp only [restoreAgents] at hp
      rw [if_pos hne] at hp
      cases hp
    · simp only [restoreAgents] at hp
      rw [if_neg hne] at hp
      simp only [doPersist] at hp
      rw [restoreFold_fresh (persistedOf agents) now [] (fun q _ => rfl) hndp] at hp
      rw [List.nil_append] at hp
      rw [List.mem_map] at hp
      obtain ⟨q, _, hq⟩ := hp
      rw [← hq]

/-- Witness for C6 at a two-agent roster. -/
theorem persist_restore_roundtrip_witness :
    persistedOf [(1, ⟨1, .typing, 3⟩), (4, ⟨4, .terminal, 8⟩)] =
      [(1, (⟨1, .typing, 3⟩ : AgentState)), (4, ⟨4, .terminal, 8⟩)].map
        (fun p => PersistedAgent.mk p.2.id) ∧
    (restoreAgents ⟨9, [], none,
        persistedOf [(1, ⟨1, .typing, 3⟩), (4, ⟨4, .terminal, 8⟩)], 0, true⟩ 11).agents.map Prod.fst =
      [(1, (⟨1, .typing, 3⟩ : AgentState)), (4, ⟨4, .terminal, 8⟩)].map Prod.fst ∧
    (∀ p ∈ (restoreAgents ⟨9, [], none,
        persistedOf [(1, ⟨1, .typing, 3⟩), (4, ⟨4, .terminal, 8⟩)], 0, true⟩ 11).agents,
      p.2.activityState = .idle) :=
  persist_restore_roundtrip [(1, ⟨1, .typing, 3⟩), (4, ⟨4, .terminal, 8⟩)] 11 9 true
    (by decide) (by decide)

/-- C2: with all-qualifying activity events at strictly increasing
times, every qualifying event replaces the pending idle timeout by one
scheduled exactly D = TEXT_IDLE_DELAY_MS after it (so at most one
timeout is ever outstanding), and the run fires the idle decay after
the last event exactly once, exactly at lastEventTime + D — not
earlier, not twice — leaving every agent idle. -/
theorem idle_decay_fires_once (D : Nat) (hD : 0 < D) (s0 : MonState)
    (h0 : s0.pending = []) (evs : List (Nat × HostEvent)) (tn : Nat) (en : HostEvent)
    (hsort : ((evs ++ [(tn, en)]).map Prod.fst).Pairwise (· < ·))
    (hq : ∀ ev ∈ evs ++ [(tn, en)], isQualifying ev.2 = true) :
    ((runEvents D s0 (evs ++ [(tn, en)])).2.filter (fun f => decide (tn < f)) =
      [tn + D]) ∧
    (∀ p ∈ (runEvents D s0 (evs ++ [(tn, en)])).1.agents,
      p.2.activityState = .idle) ∧
    (∀ (s : MonState) (t : Nat) (e : HostEvent), TInv s → isQualifying e = true →
      (handleEvent D e s t).1.pending = [(s.nextHandle, t + D)] ∧
      TInv (handleEvent D e s t).1 ∧
      (∀ p ∈ (handleEvent D e s t).1.agents, p.2.activityState = eventTarget e) ∧
      eventTarget e ≠ .idle) ∧
    (∀ (s : MonState) (t : Nat), TInv s → TInv (fireAllDueBefore s t).1) := by
  have hinv0 : TInv s0 := by
    constructor
    · rw [h0]
      simp
    · intro p hp
      rw [h0] at hp
      cases hp
  obtain ⟨h1, h2⟩ := runEvents_qual_spec D hD evs tn en s0 hinv0 hsort hq
  refine ⟨h1, h2, ?_, ?_⟩
  · intro s t e hinv hqe
    rw [handleEvent_qualifying hqe]
    obtain ⟨hp, hinv2, hag⟩ := applyActivity_spec hinv
    refine ⟨hp, hinv2, ?_, eventTarget_ne_idle hqe⟩
    rw [hag]
    exact setAgentState_state
  · intro s t hinv
    exact (fireAllDueBefore_spec hinv).1

/-- Witness for C2: two qualifying events at t = 0 and t = 100 with
D = 5000; the decay fires exactly once at 5100. -/
theorem idle_decay_fires_once_witness :
    ((runEvents 5000 ⟨[(1, ⟨1, .idle, 0⟩)], [], none, 0, true⟩
        ([(0, .tabsChanged)] ++ [(100, .textDocChange ["x"])])).2.filter
        (fun f => decide (100 < f)) = [100 + 5000]) ∧
    (∀ p ∈ (runEvents 5000 ⟨[(1, ⟨1, .idle, 0⟩)], [], none, 0, true⟩
        ([(0, .tabsChanged)] ++ [(100, .textDocChange ["x"])])).1.agents,
      p.2.activityState = .idle) :=
  let r := idle_decay_fires_once 5000 (by decide)
    ⟨[(1, ⟨1, .idle, 0⟩)], [], none, 0, true⟩ rfl
    [(0, .tabsChanged)] 100 (.textDocChange ["x"])
    (by simp [List.pairwise_cons]) (by decide)
  ⟨r.1, r.2.1⟩

/-- C4 counterexample: the claim says every active-terminal change sets
the shared state to terminal and resets the idle timer, but the
listener ignores the change when the new active terminal is undefined:
with one agent in the typing state, the event leaves the state typing
and schedules nothing. -/
theorem active_terminal_none_counterexample :
    (handleEvent 5000 (.activeTerminalChanged false)
        ⟨[(1, ⟨1, .typing, 0⟩)], [], none, 0, true⟩ 100).1 =
      ⟨[(1, ⟨1, .typing, 0⟩)], [], none, 0, true⟩ ∧
    (mget (handleEvent 5000 (.activeTerminalChanged false)
        ⟨[(1, ⟨1, .typing, 0⟩)], [], none, 0, true⟩ 100).1.agents 1).map
      AgentState.activityState = some .typing ∧
    AgentActivityState.typing ≠ .terminal ∧
    (handleEvent 5000 (.activeTerminalChanged false)
        ⟨[(1, ⟨1, .typing, 0⟩)], [], none, 0, true⟩ 100).1.pending = [] := by
  refine ⟨rfl, rfl, by decide, rfl⟩

/-- C4 as amended: whenever the active terminal changes to a defined
terminal, every agent's presence state becomes terminal and the idle
decay timer is reset to t + D; a change that leaves no active terminal
is ignored. -/
theorem active_terminal_change_sets_terminal (D : Nat) (s : MonState) (t : Nat)
    (hinv : TInv s) :
    (∀ p ∈ (handleEvent D (.activeTerminalChanged true) s t).1.agents,
      p.2.activityState = .terminal) ∧
    (handleEvent D (.activeTerminalChanged true) s t).1.pending =
      [(s.nextHandle, t + D)] ∧
    (handleEvent D (.activeTerminalChanged true) s t).1.idleTimer =
      some s.nextHandle ∧
    handleEvent D (.activeTerminalChanged false) s t = (s, []) := by
  have hqe : isQualifying (HostEvent.activeTerminalChanged true) = true := rfl
  have hrw := @handleEvent_qualifying D _ s t hqe
  obtain ⟨hp, hinv2, hag⟩ :=
    @applyActivity_spec D (eventTarget (HostEvent.activeTerminalChanged true)) s t hinv
  refine ⟨?_, ?_, ?_, rfl⟩
  · intro p hmem
    rw [hrw] at hmem
    rw [hag] at hmem
    exact setAgentState_state p hmem
  · rw [hrw]
    exact hp
  · rw [hrw]
    have hmid : TInv { s with agents :=
        (setAgentState (eventTarget (.activeTerminalChanged true)) s.agents t
          s.hasWebview).1 } := hinv
    exact (@resetIdleTimer_pending D _ t hmid).2.1

/-- Witness for C4 as amended, at a one-agent state. -/
theorem active_terminal_change_sets_terminal_witness :
    (∀ p ∈ (handleEvent 5000 (.activeTerminalChanged true)
        ⟨[(1, ⟨1, .typing, 0⟩)], [], none, 0, true⟩ 100).1.agents,
      p.2.activityState = .terminal) ∧
    (handleEvent 5000 (.activeTerminalChanged true)
        ⟨[(1, ⟨1, .typing, 0⟩)], [], none, 0, true⟩ 100).1.pending =
      [(0, 100 + 5000)] ∧
    (handleEvent 5000 (.activeTerminalChanged true)
        ⟨[(1, ⟨1, .typing, 0⟩)], [], none, 0, true⟩ 100).1.idleTimer = some 0 :=
  let r := active_terminal_change_sets_terminal 5000
    ⟨[(1, ⟨1, .typing, 0⟩)], [], none, 0, true⟩ 100
    ⟨by decide, by intro p hp; cases hp⟩
  ⟨r.1, r.2.1, r.2.2.1⟩


/-- Any action list that opens with the write-intent mark satisfies the
mark-precedes-write ordering. -/
theorem markPrecedesWrites_cons_mark (rest : List PAction) :
    MarkPrecedesWrites (PAction.markOwnWrite :: rest) := by
  intro i l h
  cases i with
  | zero => simp [List.getElem?_cons_zero] at h
  | succ n => exact ⟨0, Nat.succ_pos n, by simp⟩

/-- C1 counterexample: the claim says every initiated layout write is
preceded by markOwnWrite, but the handlers guard the mark with optional
chaining on this.layoutWatcher, which is null until startLayoutWatcher
runs at the end of the async asset block: a saveLayout arriving in that
window performs the file write with no mark at all. -/
theorem layout_write_unmarked_before_watcher :
    handleSaveLayout false .null = [.writeLayoutFile .null] ∧
    PAction.markOwnWrite ∉ handleSaveLayout false .null ∧
    ¬ MarkPrecedesWrites (handleSaveLayout false .null) := by
  refine ⟨rfl, ?_, ?_⟩
  · intro hmem
    rw [show handleSaveLayout false .null = [.writeLayoutFile .null] from rfl] at hmem
    simp at hmem
  · intro h
    obtain ⟨jj, hlt, _⟩ := h 0 .null (by simp [handleSaveLayout])
    exact absurd hlt (Nat.not_lt_zero jj)

/-- C1 as amended: once the layout watcher is started, every
layout-writing handler (saveLayout, a validated importLayout,
resetToDefaultLayout) performs markOwnWrite before its file write
begins; the one change notification following an own write is swallowed
by the watcher without a layoutLoaded push, and the next change,
written by another instance, produces exactly one layoutLoaded push
carrying the new layout.  (A write issued before the watcher starts is
unmarked — see the counterexample — but in that window no watcher
exists to re-deliver the change.) -/
theorem layout_self_write_suppressed (l j d A B : Json) (w : LayoutWatcher)
    (hj : importLayoutCheckOk j = true) :
    MarkPrecedesWrites (handleSaveLayout true l) ∧
    MarkPrecedesWrites (handleImportLayout true (some (some j))) ∧
    MarkPrecedesWrites (handleResetToDefaultLayout true (some d)) ∧
    (onLayoutFileChanged (markOwnWrite w) A).2 = [] ∧
    (onLayoutFileChanged (onLayoutFileChanged (markOwnWrite w) A).1 B).2 =
      [.postLayoutLoaded B] := by
  have hsave : handleSaveLayout true l =
      PAction.markOwnWrite :: [.writeLayoutFile l] := rfl
  have himp : handleImportLayout true (some (some j)) =
      PAction.markOwnWrite :: [.writeLayoutFile j, .postLayoutLoaded j,
       .showInfo "Pixel Agents: Layout imported successfully."] := by
    simp [handleImportLayout, hj]
  have hreset : handleResetToDefaultLayout true (some d) =
      PAction.markOwnWrite :: [.writeLayoutFile d, .postLayoutLoaded d,
       .showInfo "Pixel Agents: Layout reset to default."] := rfl
  refine ⟨?_, ?_, ?_, rfl, rfl⟩
  · rw [hsave]
    exact markPrecedesWrites_cons_mark _
  · rw [himp]
    exact markPrecedesWrites_cons_mark _
  · rw [hreset]
    exact markPrecedesWrites_cons_mark _

/-- Witness for C1 as amended, with a valid imported record and
concrete layouts. -/
theorem layout_self_write_suppressed_witness :
    MarkPrecedesWrites (handleSaveLayout true .null) ∧
    MarkPrecedesWrites (handleImportLayout true (some (some
      (.obj [("version", .num 1), ("tiles", .arr [])])))) ∧
    MarkPrecedesWrites (handleResetToDefaultLayout true (some .null)) ∧
    (onLayoutFileChanged (markOwnWrite ⟨false⟩) (.str "A")).2 = [] ∧
    (onLayoutFileChanged (onLayoutFileChanged (markOwnWrite ⟨false⟩)
      (.str "A")).1 (.str "B")).2 = [.postLayoutLoaded (.str "B")] :=
  layout_self_write_suppressed .null
    (.obj [("version", .num 1), ("tiles", .arr [])]) .null (.str "A") (.str "B")
    ⟨false⟩ rfl

/-- C7: an imported layout record whose version is not the current
version 1 or whose tiles field is not an array is rejected: the handler
shows an error and performs no file write and no layoutLoaded post,
whether or not the layout watcher has started. -/
theorem invalid_import_no_mutation (hasWatcher : Bool) (imported : Json)
    (h : importLayoutCheckOk imported = false) :
    handleImportLayout hasWatcher (some (some imported)) =
      [.showError "Pixel Agents: Invalid layout file."] ∧
    (∀ l, PAction.writeLayoutFile l ∉
      handleImportLayout hasWatcher (some (some imported))) ∧
    (∀ l, PAction.postLayoutLoaded l ∉
      handleImportLayout hasWatcher (some (some imported))) := by
  have he : handleImportLayout hasWatcher (some (some imported)) =
      [.showError "Pixel Agents: Invalid layout file."] := by
    simp [handleImportLayout, h]
  refine ⟨he, ?_, ?_⟩
  · intro l
    rw [he]
    simp
  · intro l
    rw [he]
    simp

/-- Witness for C7 at a record carrying the future version 2. -/
theorem invalid_import_no_mutation_witness :
    handleImportLayout true (some (some (.obj [("version", .num 2), ("tiles", .arr [])]))) =
      [.showError "Pixel Agents: Invalid layout file."] ∧
    (∀ l, PAction.writeLayoutFile l ∉
      handleImportLayout true (some (some (.obj [("version", .num 2), ("tiles", .arr [])])))) ∧
    (∀ l, PAction.postLayoutLoaded l ∉
      handleImportLayout true (some (some (.obj [("version", .num 2), ("tiles", .arr [])])))) :=
  invalid_import_no_mutation true (.obj [("version", .num 2), ("tiles", .arr [])]) rfl

/-- C8: loadWallTiles yields exactly 16 sprites, the sprite at list
index m being the piece for bitmask m cut from column m mod 4 and row
m div 4 of the 4-column palette, 16 by 32 pixels. -/
theorem wall_tiles_bitmask_palette (thr : Nat) (png : Png) :
    (loadWallTiles thr png).length = 16 ∧
    (∀ m r c : Nat, m < 16 → r < 32 → c < 16 →
      (((loadWallTiles thr png).getD m []).getD r []).getD c "" =
        pngPixelStr thr png ((m % 4) * 16 + c) ((m / 4) * 32 + r)) := by
  constructor
  · unfold loadWallTiles
    rw [List.length_map, List.length_range]
    rfl
  · intro m r c hm hr hc
    have h1 : m < WALL_BITMASK_COUNT := hm
    have h2 : r < WALL_PIECE_HEIGHT := hr
    have h3 : c < WALL_PIECE_WIDTH := hc
    unfold loadWallTiles
    rw [getD_range_map _ _ _ _ h1]
    simp only [getD_range_map _ _ _ _ h2, getD_range_map _ _ _ _ h3]
    rfl

/-- Witness for C8 cut from a concrete 64 by 128 image at mask 5. -/
theorem wall_tiles_bitmask_palette_witness :
    (loadWallTiles 0 ⟨64, 128, []⟩).length = 16 ∧
    (((loadWallTiles 0 ⟨64, 128, []⟩).getD 5 []).getD 1 []).getD 2 "" =
      pngPixelStr 0 ⟨64, 128, []⟩ ((5 % 4) * 16 + 2) ((5 / 4) * 32 + 1) :=
  ⟨(wall_tiles_bitmask_palette 0 ⟨64, 128, []⟩).1,
   (wall_tiles_bitmask_palette 0 ⟨64, 128, []⟩).2 5 1 2
     (by decide) (by decide) (by decide)⟩

/-- C9: in loadFurnitureAssets, a catalog entry whose file is missing
is skipped (no sprite stored under its id), an entry whose PNG fails to
parse gets a fully transparent placeholder of its declared dimensions,
and an entry whose PNG parses gets its converted pixels — each computed
independently of the other entries, so no single failure aborts the
fold over the rest of the catalog. -/
theorem furniture_load_skips_and_placeholders (thr : Nat) (root : String)
    (fs : List (String × FileContent)) (catalog : List FurnitureAsset)
    (asset : FurnitureAsset) (hnd : (catalog.map FurnitureAsset.id).Nodup)
    (hmem : asset ∈ catalog) :
    (mget fs (joinPath root (resolveAssetFile asset.file)) = none →
      mget (loadFurnitureAssets thr root fs catalog) asset.id = none) ∧
    (mget fs (joinPath root (resolveAssetFile asset.file)) = some .invalid →
      mget (loadFurnitureAssets thr root fs catalog) asset.id =
        some ((List.range asset.height).map fun _ => List.replicate asset.width "")) ∧
    (∀ p : Png,
      mget fs (joinPath root (resolveAssetFile asset.file)) = some (.png p) →
      mget (loadFurnitureAssets thr root fs catalog) asset.id =
        some ((List.range asset.height).map fun y =>
          (List.range asset.width).map fun x => pngPixelStr thr p x y)) := by
  have key := mget_loadFold_mem thr root fs catalog [] asset hnd hmem
  refine ⟨?_, ?_, ?_⟩
  · intro hc
    unfold loadFurnitureAssets
    rw [key, hc]
    rfl
  · intro hc
    unfold loadFurnitureAssets
    rw [key, hc]
    rfl
  · intro p hc
    unfold loadFurnitureAssets
    rw [key, hc]
    rfl

/-- Witness for C9 over a three-entry catalog: a1 has a malformed PNG,
a2 is missing from disk, a3 parses. -/
theorem furniture_load_skips_and_placeholders_witness :
    (mget (loadFurnitureAssets 16 "root"
        [("root/assets/f1.png", .invalid), ("root/assets/f3.png", .png ⟨1, 1, [7, 8, 9, 255]⟩)]
        [⟨"a1", "", "", "", "f1.png", 2, 1⟩, ⟨"a2", "", "", "", "assets/f2.png", 1, 2⟩,
         ⟨"a3", "", "", "", "f3.png", 1, 1⟩]) "a2" = none) ∧
    (mget (loadFurnitureAssets 16 "root"
        [("root/assets/f1.png", .invalid), ("root/assets/f3.png", .png ⟨1, 1, [7, 8, 9, 255]⟩)]
        [⟨"a1", "", "", "", "f1.png", 2, 1⟩, ⟨"a2", "", "", "", "assets/f2.png", 1, 2⟩,
         ⟨"a3", "", "", "", "f3.png", 1, 1⟩]) "a1" =
      some ((List.range 1).map fun _ => List.replicate 2 "")) ∧
    (mget (loadFurnitureAssets 16 "root"
        [("root/assets/f1.png", .invalid), ("root/assets/f3.png", .png ⟨1, 1, [7, 8, 9, 255]⟩)]
        [⟨"a1", "", "", "", "f1.png", 2, 1⟩, ⟨"a2", "", "", "", "assets/f2.png", 1, 2⟩,
         ⟨"a3", "", "", "", "f3.png", 1, 1⟩]) "a3" =
      some ((List.range 1).map fun y =>
        (List.range 1).map fun x => pngPixelStr 16 ⟨1, 1, [7, 8, 9, 255]⟩ x y)) :=
  ⟨(furniture_load_skips_and_placeholders 16 "root"
      [("root/assets/f1.png", .invalid), ("root/assets/f3.png", .png ⟨1, 1, [7, 8, 9, 255]⟩)]
      [⟨"a1", "", "", "", "f1.png", 2, 1⟩, ⟨"a2", "", "", "", "assets/f2.png", 1, 2⟩,
       ⟨"a3", "", "", "", "f3.png", 1, 1⟩]
      ⟨"a2", "", "", "", "assets/f2.png", 1, 2⟩ (by decide) (by decide)).1 (by decide),
   (furniture_load_skips_and_placeholders 16 "root"
      [("root/assets/f1.png", .invalid), ("root/assets/f3.png", .png ⟨1, 1, [7, 8, 9, 255]⟩)]
      [⟨"a1", "", "", "", "f1.png", 2, 1⟩, ⟨"a2", "", "", "", "assets/f2.png", 1, 2⟩,
       ⟨"a3", "", "", "", "f3.png", 1, 1⟩]
      ⟨"a1", "", "", "", "f1.png", 2, 1⟩ (by decide) (by decide)).2.1 (by decide),
   (furniture_load_skips_and_placeholders 16 "root"
      [("root/assets/f1.png", .invalid), ("root/assets/f3.png", .png ⟨1, 1, [7, 8, 9, 255]⟩)]
      [⟨"a1", "", "", "", "f1.png", 2, 1⟩, ⟨"a2", "", "", "", "assets/f2.png", 1, 2⟩,
       ⟨"a3", "", "", "", "f3.png", 1, 1⟩]
      ⟨"a3", "", "", "", "f3.png", 1, 1⟩ (by decide) (by decide)).2.2
      ⟨1, 1, [7, 8, 9, 255]⟩ (by decide)⟩


end PixelAgents

